import Mathlib

/-!
A shallow embedding of the `errors` Go package (jakebowkett/go-errors).

The package wraps an arbitrary error in a `container` carrying an ordered
list of `prefixes` (annotations) and a captured `stack` of call frames.
Containers are heap-allocated and mutated in place (`addPrefix` appends to
the prefix list of the pointed-to container), and errors are compared by
interface identity (`==` on pointers), so the embedding threads an explicit
heap of containers and gives every allocated value a numeric identity.

The ambient Go call stack that `runtime.Callers` would report is passed to
each operation as an explicit list of frames (`callers`), listed from the
innermost frame (the `stack` helper itself) outward, exactly the sequence
`runtime.CallersFrames` iterates.
-/

namespace GoErrors

/-- One recorded call site, mirroring `type frame struct` in errors.go. -/
structure Frame where
  line : Int
  file : String
  function : String
deriving DecidableEq

/-- A Go `error` interface value of this closed model: either a plain
(non-container) error — identified by its allocation id, with the message
its `Error()` method returns — or a pointer to a `container` cell. `nil`
error interface values are modelled as `none : Option GoError`. -/
inductive GoError where
  | plainE (eid : Nat) (msg : String) : GoError
  | ref (r : Nat) : GoError
deriving DecidableEq

/-- Mirrors `type container struct { err error; prefixes []string;
stack []frame }` in errors.go. -/
structure Container where
  err : GoError
  prefixes : List String
  stack : List Frame
deriving DecidableEq

/-- The store of allocated containers: an allocation counter and the live
cells, newest first. Plain errors allocated with `errors.New` draw their
identity from the same counter. -/
structure Heap where
  next : Nat
  cells : List (Nat × Container)
deriving DecidableEq

/-- Dereference a container pointer. -/
def Heap.find (h : Heap) (r : Nat) : Option Container :=
  (h.cells.find? (fun p => p.1 == r)).map Prod.snd

/-- Allocate a fresh container cell, returning its address. -/
def Heap.alloc (h : Heap) (c : Container) : Nat × Heap :=
  (h.next, ⟨h.next + 1, (h.next, c) :: h.cells⟩)

/-- Overwrite the cell at address `r` (in-place mutation of a container). -/
def Heap.update (h : Heap) (r : Nat) (c : Container) : Heap :=
  ⟨h.next, h.cells.map (fun p => if p.1 == r then (r, c) else p)⟩

/-- The empty heap of a fresh program. -/
def emptyHeap : Heap := ⟨0, []⟩

/-- Does `pat` occur as a contiguous infix of `l`? Executable model of Go
`strings.Contains` at the character level. -/
def infixCheck (pat : List Char) : List Char → Bool
  | [] => pat.isEmpty
  | c :: rest => pat.isPrefixOf (c :: rest) || infixCheck pat rest

/-- Go `strings.Contains s pat`. -/
def strContains (s pat : String) : Bool :=
  infixCheck pat.data s.data

/-- The frame filter of the collection loop in `stack`: Go appends a frame
only if its file path does not contain "runtime/". -/
def notRuntime (f : Frame) : Bool :=
  ! strContains f.file "runtime/"

/-- The candidate frames the loop in `stack` collects: `runtime.Callers`
fills a buffer of at most 16 program counters, and the loop stops at the
first frame whose file contains "runtime/". -/
def collectedFrames (callers : List Frame) : List Frame :=
  (callers.take 16).takeWhile notRuntime

/-- Go slice expression `xs[i:]`: panics (modelled as `Except.error`) when
`i` is negative or exceeds the length. -/
def goSliceFrom (xs : List Frame) (i : Int) : Except String (List Frame) :=
  if i < 0 ∨ (xs.length : Int) < i then Except.error "slice bounds out of range"
  else Except.ok (xs.drop i.toNat)

/-- Mirrors `func stack(skip int) []frame` in errors.go, Go panic modelled
as `Except.error`: collect at most 16 frames, stop at the first runtime
frame, return an empty slice if fewer than `skip` frames were collected,
otherwise slice off the first `skip` frames. -/
def stack (skip : Int) (callers : List Frame) : Except String (List Frame) :=
  let collected := collectedFrames callers
  if (collected.length : Int) < skip then Except.ok []
  else goSliceFrom collected skip

/-- The frames `stack skip` returns on its non-panicking domain (every
in-package call site passes the literal 2 or 3); `stack_eq_ok` below proves
`stack (skip : Nat) callers = Except.ok (stackN skip callers)`. -/
def stackN (skip : Nat) (callers : List Frame) : List Frame :=
  let collected := collectedFrames callers
  if collected.length < skip then [] else collected.drop skip

theorem stack_eq_ok (skip : Nat) (callers : List Frame) :
    stack (skip : Int) callers = Except.ok (stackN skip callers) := by
  unfold stack stackN goSliceFrom
  by_cases hlt : (collectedFrames callers).length < skip
  · simp [hlt, Int.ofNat_lt.mpr hlt]
  · have h1 : ¬ ((collectedFrames callers).length : Int) < (skip : Int) := by
      exact_mod_cast hlt
    have h2 : ¬ ((skip : Int) < 0) := by omega
    have h3 : ¬ (((collectedFrames callers).length : Int) < (skip : Int)) := h1
    simp [hlt, h1, h2, h3]

/-- Mirrors `func newErr(msg string) error`: allocate a fresh plain error
(`errors.New(msg)` — a new identity from the heap's counter), wrap it in a
new container with no prefixes and the stack captured with skip 3 (the
frames of `stack`, `newErr` and `New`/`NewF` themselves). -/
def newErr (msg : String) (callers : List Frame) (h : Heap) : GoError × Heap :=
  let origId := h.next
  let h1 : Heap := ⟨h.next + 1, h.cells⟩
  let p := h1.alloc ⟨GoError.plainE origId msg, [], stackN 3 callers⟩
  (GoError.ref p.1, p.2)

/-- Mirrors `func New(msg string) error`. -/
def New (msg : String) (callers : List Frame) (h : Heap) : GoError × Heap :=
  newErr msg callers h

/-- Mirrors `func addPrefix(err error, prefix string) error`: nil in, nil
out; a plain error is wrapped in a new container with prefix list
`[pfx]` and a stack captured with skip 3; a container has `pfx` appended
to its prefix list in place (same pointer returned, cell overwritten).
The dereference-failure branch of the container case is unreachable in Go
(pointers are never dangling) and returns the pointer with the heap
unchanged. -/
def addPrefix (err : Option GoError) (pfx : String) (callers : List Frame) (h : Heap) :
    Option GoError × Heap :=
  match err with
  | none => (none, h)
  | some (GoError.plainE i m) =>
    let p := h.alloc ⟨GoError.plainE i m, [pfx], stackN 3 callers⟩
    (some (GoError.ref p.1), p.2)
  | some (GoError.ref r) =>
    match h.find r with
    | some c => (some (GoError.ref r), h.update r ⟨c.err, c.prefixes ++ [pfx], c.stack⟩)
    | none => (some (GoError.ref r), h)

/-- Mirrors `func Prefix(err error, prefix string) error`, which delegates
to `addPrefix`. -/
def Prefix (err : Option GoError) (pfx : String) (callers : List Frame) (h : Heap) :
    Option GoError × Heap :=
  addPrefix err pfx callers h

/-- Mirrors `func AddStack(err error) error`: nil in, nil out; a plain
error is wrapped in a new container with no prefixes and a stack captured
with skip 2; a container is returned as-is, heap untouched. -/
def AddStack (err : Option GoError) (callers : List Frame) (h : Heap) :
    Option GoError × Heap :=
  match err with
  | none => (none, h)
  | some (GoError.plainE i m) =>
    let p := h.alloc ⟨GoError.plainE i m, [], stackN 2 callers⟩
    (some (GoError.ref p.1), p.2)
  | some (GoError.ref r) => (some (GoError.ref r), h)

/-- Mirrors `func Cause(err error) error`: nil in, nil out; a plain error
is returned unchanged; a container yields its `err` field. The
dereference-failure branch is unreachable in Go and returns the input. -/
def Cause (err : Option GoError) (h : Heap) : Option GoError :=
  match err with
  | none => none
  | some (GoError.plainE i m) => some (GoError.plainE i m)
  | some (GoError.ref r) =>
    match h.find r with
    | some c => some c.err
    | none => some (GoError.ref r)

/-- Mirrors `func Equals(err1, err2 error) bool`:
`Cause(err1) == Cause(err2)` under Go interface identity, which the
model's decidable equality on `Option GoError` captures (pointer equality
of containers, allocation identity of plain errors). -/
def Equals (err1 err2 : Option GoError) (h : Heap) : Bool :=
  decide (Cause err1 h = Cause err2 h)

/-- The `Error()` string of a `GoError`, with `fuel` bounding the depth of
nested-container dispatch (the wrapped error of a container is always
plain under the package's public API — the `NoNest` invariant below — so
fuel 1 suffices there; fuel is only a termination device for the
unreachable nested shape). A plain error's `Error()` is its message. -/
def errMsg (h : Heap) : Nat → GoError → String
  | _, GoError.plainE _ m => m
  | 0, GoError.ref _ => ""
  | fuel + 1, GoError.ref r =>
    match h.find r with
    | none => ""
    | some c =>
      c.prefixes.foldl (fun s p => s ++ p ++ ": ") "" ++ errMsg h fuel c.err

/-- Mirrors `func (e *container) Error() string`: fold every prefix
followed by ": " onto an accumulator, then append the wrapped error's
`Error()` string. -/
def containerError (h : Heap) (fuel : Nat) (c : Container) : String :=
  c.prefixes.foldl (fun s p => s ++ p ++ ": ") "" ++ errMsg h fuel c.err

/-- Go `fmt`'s escaping of one character inside a `%q`-quoted string
(strconv.Quote): backslash and double quote are backslash-escaped, the
common control characters take their mnemonic escapes, and printable
characters stand for themselves. (`%q` is standard-library behaviour, not
code of this repository; modelled for the printable-ASCII messages the
package manipulates.) -/
def quoteChar (ch : Char) : String :=
  if ch = '\\' then "\\\\"
  else if ch = '"' then "\\\""
  else if ch = '\n' then "\\n"
  else if ch = '\t' then "\\t"
  else if ch = '\r' then "\\r"
  else String.singleton ch

/-- Concatenation of a list of strings in order. -/
def strConcat : List String → String
  | [] => ""
  | s :: rest => s ++ strConcat rest

/-- Go `fmt.Sprintf("%q", s)` on a string: the escaped text wrapped in
double quotes. -/
def goQuote (s : String) : String :=
  "\"" ++ strConcat (s.data.map quoteChar) ++ "\""

/-- One frame's block of the verbose rendering in
`func (e *container) Format`: the `Fprintf` body
`"  %s(%s)\n  %s     %s:%d\n  %s\n"` with `start`/`fileStart` chosen by
whether the frame is the last of the stack. -/
def frameBlock (isLast : Bool) (f : Frame) : String :=
  let start := if isLast then "└─ " else "├─ "
  let fileStart := if isLast then " " else "│"
  "  " ++ start ++ "(" ++ f.function ++ ")\n" ++
    "  " ++ fileStart ++ "     " ++ f.file ++ ":" ++ toString f.line ++ "\n" ++
    "  " ++ fileStart ++ "\n"

/-- The frame loop of the verbose case of `Format`: each frame's block in
order, the last frame rendered with the closing connector (`i ==
len(e.stack)-1` in the source selects the last index). -/
def renderFrames : List Frame → String
  | [] => ""
  | [f] => frameBlock true f
  | f :: g :: rest => frameBlock false f ++ renderFrames (g :: rest)

/-- Mirrors the `case 'v'` arm of `Format`: the header
`"Error: " ++ e.Error() ++ "\n  │\n"` is printed unconditionally, then the
frame blocks. -/
def formatV (h : Heap) (fuel : Nat) (c : Container) : String :=
  "Error: " ++ containerError h fuel c ++ "\n  │\n" ++ renderFrames c.stack

/-- Mirrors the `case 's'` arm of `Format`: only `e.err.Error()`, the
wrapped error's own message. -/
def formatS (h : Heap) (fuel : Nat) (c : Container) : String :=
  errMsg h fuel c.err

/-- Mirrors the `case 'q'` arm of `Format`: `e.err.Error()` rendered
through `%q`. -/
def formatQ (h : Heap) (fuel : Nat) (c : Container) : String :=
  goQuote (errMsg h fuel c.err)

/-- Mirrors `func (e *container) Format(s fmt.State, verb rune)`: dispatch
on the verb; any other verb writes nothing. -/
def containerFormat (h : Heap) (fuel : Nat) (c : Container) (verb : Char) : String :=
  if verb = 'v' then formatV h fuel c
  else if verb = 's' then formatS h fuel c
  else if verb = 'q' then formatQ h fuel c
  else ""

/-- The frame blocks as claim C8 words them: the tree-connector opener
`"├─ "` for every frame except the last and `"└─ "` for the last frame —
expressed over `dropLast` and `getLast?` rather than by the loop of the
source, to be compared with `renderFrames`. -/
def specBlocks (fs : List Frame) : String :=
  strConcat ((fs.dropLast).map (frameBlock false)) ++
    (match fs.getLast? with
     | none => ""
     | some f => frameBlock true f)

/-- The verbose rendering exactly as claim C8 states it: the header
`"Error: "` plus the annotated message; when the stack is empty only that
header line; otherwise the literal ASCII `"\n  |\n"` connector and the
frame blocks. -/
def claimRenderV (h : Heap) (fuel : Nat) (c : Container) : String :=
  if c.stack = [] then "Error: " ++ containerError h fuel c
  else "Error: " ++ containerError h fuel c ++ "\n  |\n" ++ specBlocks c.stack

/-- The rendered message as claim C3 words it:
`a1 ++ ": " ++ a2 ++ ": " ++ ... ++ an ++ ": " ++ m`. -/
def specMsg : List String → String → String
  | [], m => m
  | p :: ps, m => p ++ ": " ++ specMsg ps m

/-- Containers never nest: every cell of the heap wraps a plain error. -/
def NoNest (h : Heap) : Prop :=
  ∀ p ∈ h.cells, ∃ i m, p.2.err = GoError.plainE i m

/-- A demonstration ambient call stack: the three in-package frames that
`stack(3)` skips (`stack`, `newErr`, `New`), then a caller frame. -/
def demoCallers : List Frame :=
  [⟨251, "errors/errors.go", "errors.stack"⟩,
   ⟨118, "errors/errors.go", "errors.newErr"⟩,
   ⟨104, "errors/errors.go", "errors.New"⟩,
   ⟨12, "app/main.go", "main.main"⟩]

/-- A demonstration container and heap: the container at address 1 wraps
plain error 0 with message "hello", no prefixes, one captured frame. -/
def demoContainer : Container :=
  ⟨GoError.plainE 0 "hello", [], [⟨12, "app/main.go", "main.main"⟩]⟩

/-- A heap holding `demoContainer` at address 1. -/
def demoHeap : Heap := ⟨2, [(1, demoContainer)]⟩

theorem foldl_colon (ps : List String) : ∀ (acc m : String),
    ps.foldl (fun s p => s ++ p ++ ": ") acc ++ m = acc ++ specMsg ps m := by
  induction ps with
  | nil => intro acc m; simp [specMsg]
  | cons p ps ih =>
    intro acc m
    simp only [List.foldl_cons, specMsg]
    rw [ih]
    simp [String.append_assoc]

theorem errMsg_plain (h : Heap) (fuel : Nat) (i : Nat) (m : String) :
    errMsg h fuel (GoError.plainE i m) = m := by
  cases fuel <;> rfl

theorem containerError_plain (h : Heap) (fuel : Nat) (i : Nat) (m : String)
    (ps : List String) (st : List Frame) :
    containerError h fuel ⟨GoError.plainE i m, ps, st⟩ = specMsg ps m := by
  show ps.foldl (fun s p => s ++ p ++ ": ") "" ++ errMsg h fuel (GoError.plainE i m) =
    specMsg ps m
  rw [errMsg_plain, foldl_colon ps "" m, String.empty_append]

theorem find?_map_update (r : Nat) (c' : Container) :
    ∀ (cells : List (Nat × Container)) (q : Nat × Container),
      cells.find? (fun p => p.1 == r) = some q →
      ((cells.map (fun p => if p.1 == r then (r, c') else p)).find?
        (fun p => p.1 == r)) = some (r, c') := by
  intro cells
  induction cells with
  | nil => intro q hq; simp [List.find?] at hq
  | cons a rest ih =>
    intro q hq
    cases hak : (a.1 == r) with
    | true =>
      simp [List.find?, hak]
    | false =>
      rw [List.find?_cons] at hq
      rw [hak] at hq
      simp only [List.map_cons, List.find?_cons, hak, Bool.false_eq_true,
        if_false]
      exact ih q hq

theorem Heap.find_update_self (h : Heap) (r : Nat) (c c' : Container)
    (hf : h.find r = some c) : (h.update r c').find r = some c' := by
  unfold Heap.find at hf ⊢
  obtain ⟨p, hp, hpc⟩ := Option.map_eq_some'.mp hf
  show ((h.cells.map (fun p => if p.1 == r then (r, c') else p)).find?
    (fun p => p.1 == r)).map Prod.snd = some c'
  rw [find?_map_update r c' h.cells p hp]
  rfl

theorem Heap.next_update (h : Heap) (r : Nat) (c : Container) :
    (h.update r c).next = h.next := rfl

theorem noNest_find (h : Heap) (hn : NoNest h) (r : Nat) (c : Container)
    (hf : h.find r = some c) : ∃ i m, c.err = GoError.plainE i m := by
  unfold Heap.find at hf
  obtain ⟨p, hp, hpc⟩ := Option.map_eq_some'.mp hf
  rw [← hpc]
  exact hn p (List.mem_of_find?_eq_some hp)

theorem renderFrames_eq_specBlocks : ∀ fs : List Frame,
    renderFrames fs = specBlocks fs
  | [] => by simp [renderFrames, specBlocks, strConcat]
  | [f] => by
    simp [renderFrames, specBlocks, strConcat, String.empty_append,
      String.append_empty]
  | f :: g :: rest => by
    have ih := renderFrames_eq_specBlocks (g :: rest)
    calc renderFrames (f :: g :: rest)
        = frameBlock false f ++ renderFrames (g :: rest) := rfl
      _ = frameBlock false f ++ specBlocks (g :: rest) := by rw [ih]
      _ = specBlocks (f :: g :: rest) := by
          unfold specBlocks
          rw [List.dropLast_cons₂, List.getLast?_cons_cons, List.map_cons]
          show frameBlock false f ++ (_ ++ _) = (frameBlock false f ++ _) ++ _
          rw [String.append_assoc]

/-- C1: For every message, `New(message)` returns a pointer to a fresh
container whose `Error()` yields exactly the message, whose prefix list is
empty, and whose stack is the one `stack(3)` captures — non-empty whenever
the ambient context offers at least four collected frames (the three
in-package frames plus the caller's). `New` is a total function of the
model, so it never fails. -/
theorem New_spec (msg : String) (cs : List Frame) (h : Heap) :
    (New msg cs h).1 = GoError.ref (h.next + 1)
    ∧ (New msg cs h).2.find (h.next + 1) =
        some ⟨GoError.plainE h.next msg, [], stackN 3 cs⟩
    ∧ containerError (New msg cs h).2 1
        ⟨GoError.plainE h.next msg, [], stackN 3 cs⟩ = msg
    ∧ (4 ≤ (collectedFrames cs).length → stackN 3 cs ≠ []) := by
  refine ⟨rfl, ?_, ?_, ?_⟩
  · simp [New, newErr, Heap.alloc, Heap.find, List.find?]
  · exact containerError_plain _ 1 h.next msg [] _
  · intro hlen
    unfold stackN
    rw [if_neg (by omega)]
    exact List.length_pos.mp (by rw [List.length_drop]; omega)

/-- C1 witness: `New "hello"` from the demonstration call context. -/
theorem New_spec_witness :
    (New "hello" demoCallers emptyHeap).1 = GoError.ref 1
    ∧ stackN 3 demoCallers ≠ [] :=
  ⟨(New_spec "hello" demoCallers emptyHeap).1,
   (New_spec "hello" demoCallers emptyHeap).2.2.2 (by decide)⟩

/-- C2: `Prefix`/`addPrefix` (the spec's Annotate) maps nil to nil; wraps a
plain error in a new container with prefix list exactly `[pfx]` and the
stack `stack(3)` captures; and on a container appends `pfx` to the prefix
list of the same cell in place — the returned pointer is the input pointer,
the cell keeps its wrapped error and stack, and nothing is allocated. -/
theorem Annotate_spec (pfx : String) (cs : List Frame) (h : Heap) :
    addPrefix none pfx cs h = (none, h)
    ∧ (∀ i m, addPrefix (some (GoError.plainE i m)) pfx cs h =
        (some (GoError.ref h.next),
         ⟨h.next + 1, (h.next, ⟨GoError.plainE i m, [pfx], stackN 3 cs⟩) :: h.cells⟩))
    ∧ (∀ r c, h.find r = some c →
        (addPrefix (some (GoError.ref r)) pfx cs h).1 = some (GoError.ref r)
        ∧ (addPrefix (some (GoError.ref r)) pfx cs h).2.find r =
            some ⟨c.err, c.prefixes ++ [pfx], c.stack⟩
        ∧ (addPrefix (some (GoError.ref r)) pfx cs h).2.next = h.next) := by
  refine ⟨rfl, fun i m => rfl, fun r c hf => ?_⟩
  refine ⟨?_, ?_, ?_⟩
  · simp [addPrefix, hf]
  · simp only [addPrefix, hf]
    exact Heap.find_update_self h r c _ hf
  · simp only [addPrefix, hf]
    rfl

/-- C2 witness: annotating the demonstration container in place. -/
theorem Annotate_spec_witness :
    (addPrefix (some (GoError.ref 1)) "yoo" demoCallers demoHeap).1 =
      some (GoError.ref 1)
    ∧ (addPrefix (some (GoError.ref 1)) "yoo" demoCallers demoHeap).2.find 1 =
        some ⟨GoError.plainE 0 "hello", ["yoo"], demoContainer.stack⟩ :=
  ⟨((Annotate_spec "yoo" demoCallers demoHeap).2.2 1 demoContainer rfl).1,
   ((Annotate_spec "yoo" demoCallers demoHeap).2.2 1 demoContainer rfl).2.1⟩

/-- C3: the `Error()` rendering of a container with prefixes
`[a1, ..., an]` over a plain error with message `m` is
`a1 ++ ": " ++ ... ++ an ++ ": " ++ m`, and in particular
`["a","b"]` over `"x"` renders as `"a: b: x"` and `["yoo"]` over
`"hello"` as `"yoo: hello"`. -/
theorem errorRender_spec (h : Heap) (fuel : Nat) (i : Nat) (m : String)
    (ps : List String) (st : List Frame) :
    containerError h fuel ⟨GoError.plainE i m, ps, st⟩ = specMsg ps m
    ∧ specMsg ["a", "b"] "x" = "a: b: x"
    ∧ specMsg ["yoo"] "hello" = "yoo: hello"
    ∧ containerError h fuel ⟨GoError.plainE i "x", ["a", "b"], st⟩ = "a: b: x"
    ∧ containerError h fuel ⟨GoError.plainE i "hello", ["yoo"], st⟩ = "yoo: hello" := by
  refine ⟨containerError_plain h fuel i m ps st, by decide, by decide, ?_, ?_⟩
  · rw [containerError_plain]; decide
  · rw [containerError_plain]; decide

/-- C4: `AddStack` maps nil to nil; wraps a plain error in a new container
with an empty prefix list and the stack `stack(2)` captures; returns a
container unchanged with the heap untouched; and is idempotent beyond the
first application — a second `AddStack` returns the first result with no
change to any stack. -/
theorem AddStack_spec (cs cs' : List Frame) (h : Heap) :
    AddStack none cs h = (none, h)
    ∧ (∀ i m, AddStack (some (GoError.plainE i m)) cs h =
        (some (GoError.ref h.next),
         ⟨h.next + 1, (h.next, ⟨GoError.plainE i m, [], stackN 2 cs⟩) :: h.cells⟩))
    ∧ (∀ r, AddStack (some (GoError.ref r)) cs h = (some (GoError.ref r), h))
    ∧ (∀ e, AddStack (AddStack e cs h).1 cs' (AddStack e cs h).2 =
        AddStack e cs h) := by
  refine ⟨rfl, fun i m => rfl, fun r => rfl, fun e => ?_⟩
  match e with
  | none => rfl
  | some (GoError.plainE i m) => rfl
  | some (GoError.ref r) => rfl

/-- C5: `Cause` maps nil to nil, returns a plain error unchanged, and
unwraps a container exactly one level to its wrapped error; under the
no-nesting invariant that single unwrap always yields a plain error, never
a container. -/
theorem Cause_spec (h : Heap) :
    Cause none h = none
    ∧ (∀ i m, Cause (some (GoError.plainE i m)) h = some (GoError.plainE i m))
    ∧ (∀ r c, h.find r = some c → Cause (some (GoError.ref r)) h = some c.err)
    ∧ (NoNest h → ∀ r c, h.find r = some c →
        ∃ i m, Cause (some (GoError.ref r)) h = some (GoError.plainE i m)) := by
  refine ⟨rfl, fun i m => rfl, fun r c hf => by simp [Cause, hf], fun hn r c hf => ?_⟩
  obtain ⟨i, m, hplain⟩ := noNest_find h hn r c hf
  exact ⟨i, m, by simp [Cause, hf, hplain]⟩

/-- C5 witness: `Cause` on the demonstration heap. -/
theorem Cause_spec_witness :
    Cause (some (GoError.ref 1)) demoHeap = some (GoError.plainE 0 "hello")
    ∧ Cause none demoHeap = none :=
  ⟨(Cause_spec demoHeap).2.2.1 1 demoContainer rfl, (Cause_spec demoHeap).1⟩

/-- C6: `Equals` is true exactly when the two causes are identical values
(pointer/allocation identity, not message text): two nils are equal, a
non-nil error never equals nil, every error equals itself, and two fresh
`New` containers are unequal even for identical message text, because the
wrapped original errors are distinct allocations. -/
theorem Equals_spec (h : Heap) :
    (∀ e1 e2, Equals e1 e2 h = true ↔ Cause e1 h = Cause e2 h)
    ∧ Equals none none h = true
    ∧ (∀ e, e ≠ none → Equals e none h = false)
    ∧ (∀ e, Equals e e h = true)
    ∧ (∀ msg msg' cs cs',
        Equals (some (New msg cs h).1) (some (New msg' cs' (New msg cs h).2).1)
          (New msg' cs' (New msg cs h).2).2 = false) := by
  refine ⟨fun e1 e2 => by simp [Equals], rfl, ?_, fun e => by simp [Equals], ?_⟩
  · intro e he
    match e with
    | some (GoError.plainE i m) => simp [Equals, Cause]
    | some (GoError.ref r) =>
      cases hr : h.find r <;> simp [Equals, Cause, hr]
  · intro msg msg' cs cs'
    have h31 : ((h.next + 3 == h.next + 1) : Bool) = false := by
      simp only [beq_eq_false_iff_ne, ne_eq]
      omega
    simp only [Equals, New, newErr, Heap.alloc, Cause, Heap.find,
      List.find?, h31]
    simp only [beq_self_eq_true, Option.map_some]
    simp only [Option.map_some']
    simp only [decide_eq_false_iff_not, ne_eq, Option.some.injEq,
      GoError.plainE.injEq, not_and]
    intro hid
    omega

/-- C6 witness: equality checks on the demonstration heap. -/
theorem Equals_spec_witness :
    Equals (some (GoError.ref 1)) none demoHeap = false
    ∧ Equals none none demoHeap = true :=
  ⟨(Equals_spec demoHeap).2.2.1 (some (GoError.ref 1)) (by decide),
   (Equals_spec demoHeap).2.1⟩

/-- C7: containers never nest — the empty heap satisfies the invariant,
every public operation (`newErr` for `New`/`NewF` at any message,
`addPrefix` for `Prefix`/`PrefixF` at any prefix, and `AddStack`)
preserves it, and passing a container to an annotation or stack operation
returns that same container instead of wrapping it again. -/
theorem containerNest_plain (h : Heap) (msg pfx : String) (cs : List Frame) :
    NoNest emptyHeap
    ∧ (NoNest h → NoNest (newErr msg cs h).2)
    ∧ (∀ e, NoNest h → NoNest (addPrefix e pfx cs h).2)
    ∧ (∀ e, NoNest h → NoNest (AddStack e cs h).2)
    ∧ (∀ r, (addPrefix (some (GoError.ref r)) pfx cs h).1 = some (GoError.ref r))
    ∧ (∀ r, (AddStack (some (GoError.ref r)) cs h).1 = some (GoError.ref r)) := by
  refine ⟨fun p hp => absurd hp (List.not_mem_nil p), ?_, ?_, ?_, ?_, ?_⟩
  · intro hn p hp
    rcases List.mem_cons.mp hp with hhead | htail
    · exact ⟨h.next, msg, by rw [hhead]⟩
    · exact hn p htail
  · intro e hn p hp
    match e with
    | none => exact hn p hp
    | some (GoError.plainE i m) =>
      rcases List.mem_cons.mp hp with hhead | htail
      · exact ⟨i, m, by rw [hhead]⟩
      · exact hn p htail
    | some (GoError.ref r) =>
      cases hr : h.find r with
      | none => rw [addPrefix] at hp; rw [hr] at hp; exact hn p hp
      | some c =>
        rw [addPrefix] at hp; rw [hr] at hp
        obtain ⟨q, hq, hqp⟩ := List.mem_map.mp hp
        obtain ⟨i, m, hplain⟩ := noNest_find h hn r c hr
        cases hqr : (q.1 == r) with
        | true =>
          rw [← hqp, hqr]
          exact ⟨i, m, hplain⟩
        | false =>
          rw [← hqp, hqr]
          exact hn q hq
  · intro e hn p hp
    match e with
    | none => exact hn p hp
    | some (GoError.plainE i m) =>
      rcases List.mem_cons.mp hp with hhead | htail
      · exact ⟨i, m, by rw [hhead]⟩
      · exact hn p htail
    | some (GoError.ref r) => exact hn p hp
  · intro r
    cases hr : h.find r <;> simp [addPrefix, hr]
  · intro r
    rfl

/-- The demonstration heap satisfies the no-nesting invariant. -/
theorem demoHeap_noNest : NoNest demoHeap := by
  intro p hp
  rcases List.mem_cons.mp hp with hhead | htail
  · exact ⟨0, "hello", by rw [hhead]; rfl⟩
  · exact absurd htail (List.not_mem_nil p)

/-- C7 witness: the invariant holds of the empty heap and is kept by an
annotation of the demonstration container. -/
theorem containerNest_witness :
    NoNest emptyHeap
    ∧ NoNest (addPrefix (some (GoError.ref 1)) "yoo" demoCallers demoHeap).2 :=
  ⟨(containerNest_plain emptyHeap "hello" "yoo" demoCallers).1,
   (containerNest_plain demoHeap "hello" "yoo" demoCallers).2.2.1
     (some (GoError.ref 1)) demoHeap_noNest⟩

/-- A container with no captured frames, for the formatting theorems. -/
def emptyStackC : Container := ⟨GoError.plainE 0 "hello", [], []⟩

/-- C8 counterexample: the verbose rendering differs from the claim's
wording at concrete containers — with an empty stack the code still emits
the connector line after the header (the claim says only the header line is
emitted), and the connector and continuation lines use the box-drawing
character U+2502, not the ASCII "|" the claim spells. -/
theorem formatFull_claim_cex :
    claimRenderV emptyHeap 1 emptyStackC ≠ formatV emptyHeap 1 emptyStackC
    ∧ claimRenderV emptyHeap 1 demoContainer ≠ formatV emptyHeap 1 demoContainer := by
  constructor <;> decide

/-- C8 amended: the verbose rendering is the header `"Error: "` plus the
annotated message, the connector `"\n  │\n"` (box-drawing U+2502, emitted
even when the stack is empty), then one block per frame — `"├─ "` opens
every block but the last and `"└─ "` the last, with the function name in
parentheses, an indented `file:line`, and a closing connector line; with an
empty stack the output is exactly the header plus the connector. -/
theorem formatFull_amended (h : Heap) (fuel : Nat) (c : Container) :
    formatV h fuel c =
      "Error: " ++ containerError h fuel c ++ "\n  │\n" ++ specBlocks c.stack
    ∧ (c.stack = [] →
        formatV h fuel c = "Error: " ++ containerError h fuel c ++ "\n  │\n") := by
  constructor
  · unfold formatV
    rw [renderFrames_eq_specBlocks]
  · intro hs
    unfold formatV
    rw [hs]
    show _ ++ "" = _
    rw [String.append_empty]

/-- C8 witness: the empty-stack case at a concrete container. -/
theorem formatFull_amended_witness :
    formatV emptyHeap 1 emptyStackC =
      "Error: " ++ containerError emptyHeap 1 emptyStackC ++ "\n  │\n" :=
  (formatFull_amended emptyHeap 1 emptyStackC).2 rfl

/-- C9: the plain verb renders only the wrapped error's message — prefixes
and stack do not appear — and the quoted verb renders that same message
wrapped in double quotes with quotes and backslashes escaped; for
"hello" these render as `hello` and `"hello"`. -/
theorem formatPlainQuoted_spec (h : Heap) (fuel : Nat) (i : Nat) (m : String)
    (ps : List String) (st : List Frame) :
    containerFormat h fuel ⟨GoError.plainE i m, ps, st⟩ 's' = m
    ∧ containerFormat h fuel ⟨GoError.plainE i m, ps, st⟩ 'q' =
        "\"" ++ strConcat (m.data.map quoteChar) ++ "\""
    ∧ containerFormat emptyHeap 1 ⟨GoError.plainE 0 "hello", ["yoo"], []⟩ 's' =
        "hello"
    ∧ containerFormat emptyHeap 1 ⟨GoError.plainE 0 "hello", ["yoo"], []⟩ 'q' =
        "\"hello\""
    ∧ goQuote "he\"llo\\" = "\"he\\\"llo\\\\\"" := by
  refine ⟨?_, ?_, by decide, by decide, by decide⟩
  · show formatS h fuel ⟨GoError.plainE i m, ps, st⟩ = m
    unfold formatS
    exact errMsg_plain h fuel i m
  · show formatQ h fuel ⟨GoError.plainE i m, ps, st⟩ = _
    unfold formatQ goQuote
    rw [errMsg_plain]

/-- C10 counterexample: `stack` is not total for every skip value — a
negative skip passes the too-few-frames guard (a length is never below a
negative number) and the slice expression `stack[skip:]` faults, here on
the empty call context. -/
theorem stack_claim_cex :
    stack (-1) [] = Except.error "slice bounds out of range" := rfl

/-- C10 amended: for every non-negative skip, `stack` returns without
fault; it collects at most 16 candidate frames, stops at the first frame
whose file contains "runtime/" (no returned frame contains it), and when
fewer than `skip` frames were collected it returns the empty list instead
of slicing out of range — so a stack can be empty when the context is
shallower than the skip count, and in particular every in-package call
(`stack(2)`, `stack(3)`) terminates without fault. -/
theorem stack_amended (skip : Nat) (callers : List Frame) :
    stack (skip : Int) callers = Except.ok (stackN skip callers)
    ∧ (stackN skip callers).length ≤ 16
    ∧ (∀ f ∈ stackN skip callers, strContains f.file "runtime/" = false)
    ∧ ((collectedFrames callers).length < skip → stackN skip callers = []) := by
  have hcol : (collectedFrames callers).length ≤ 16 := by
    calc (collectedFrames callers).length
        ≤ (callers.take 16).length := (List.takeWhile_sublist _).length_le
      _ ≤ 16 := List.length_take_le 16 callers
  refine ⟨stack_eq_ok skip callers, ?_, ?_, ?_⟩
  · unfold stackN
    by_cases hlt : (collectedFrames callers).length < skip
    · simp [hlt]
    · rw [if_neg hlt, List.length_drop]
      omega
  · intro f hf
    unfold stackN at hf
    by_cases hlt : (collectedFrames callers).length < skip
    · rw [if_pos hlt] at hf
      exact absurd hf (List.not_mem_nil f)
    · rw [if_neg hlt] at hf
      have hmem : f ∈ collectedFrames callers := List.mem_of_mem_drop hf
      have hp : notRuntime f = true := List.mem_takeWhile_imp hmem
      unfold notRuntime at hp
      simpa using hp
  · intro hlt
    unfold stackN
    rw [if_pos hlt]

/-- C10 witness: a skip larger than the demonstration context collects
yields the empty stack without fault. -/
theorem stack_amended_witness :
    stack ((5 : Nat) : Int) demoCallers = Except.ok (stackN 5 demoCallers)
    ∧ stackN 5 demoCallers = [] :=
  ⟨(stack_amended 5 demoCallers).1,
   (stack_amended 5 demoCallers).2.2.2 (by decide)⟩

end GoErrors
